import Mathlib

/- Shallow embedding of the simulation core of the Arbitrage repository:
   `src/utils/simulate.rs` and `src/utils/simulate/state/eth.rs`.

   Modelling conventions:
   * `U256` values (balances, nonces, call values) are modelled as `Nat`.  The
     embedded code only compares balances, takes absolute differences of
     values below `2^256` and (in `state/eth.rs`) adds two such differences,
     so no wrap-around arithmetic is exercised by the claims.
   * `H160` addresses are modelled by their lowercase hexadecimal encodings
     (`List Char`, 40 characters for a real address), which is exactly the
     representation `mock_tx_data` manipulates via `format!("{:x}")`.
   * `ethers` sum types (`Diff`, `Action`) are embedded as inductives; struct
     fields that the embedded functions never read (`AccountDiff.code`,
     `AccountDiff.storage`, `Call.gas`, `Call.call_type`, `Create.gas`,
     trace `result`/`error` fields, ...) are omitted.
   * Rust panics (`unwrap`) are modelled by returning `none` from an
     `Option`-valued embedding. -/

namespace Arb

/-- An `H160` address, represented by its lowercase hex encoding (40 hex
characters, no `0x` prefix), as produced by the `LowerHex` instance that
`mock_tx_data` relies on. -/
abbrev Address := List Char

/-- `ethers::types::Diff`: a per-account before/after record for one field of
the state diff.  `changed f t` embeds `Diff::Changed(ChangedType { from: f, to: t })`. -/
inductive Diff (α : Type) where
  | same : Diff α
  | born (v : α) : Diff α
  | died (v : α) : Diff α
  | changed (f t : α) : Diff α
deriving DecidableEq

/-- `ethers::types::AccountDiff`, restricted to the two fields the simulation
core reads (the `code` and `storage` diffs are never consulted). -/
structure AccountDiff where
  balance : Diff Nat
  nonce : Diff Nat
deriving DecidableEq

/-- Result record of `AnalyzeAccountDiff::run` (simulate.rs, lines 7-12). -/
structure AnalyzeAccountDiff where
  increase_balance : Bool
  balance_diff : Nat
  invalid_nonce : Bool
deriving DecidableEq

/-- `AnalyzeAccountDiff::run` (simulate.rs, lines 14-35): classify one
account's state diff against an optional expected pre-transaction nonce.
`from.abs_diff(to)` is embedded as the truncated-subtraction absolute
difference, and `from != nonce.unwrap_or(from)` as `f ≠ nonce.getD f`. -/
def AnalyzeAccountDiff.run (diff : AccountDiff) (nonce : Option Nat) : AnalyzeAccountDiff where
  increase_balance :=
    match diff.balance with
    | Diff.changed f t => decide (t > f)
    | _ => false
  balance_diff :=
    match diff.balance with
    | Diff.changed f t => if f < t then t - f else f - t
    | _ => 0
  invalid_nonce :=
    match diff.nonce with
    | Diff.changed f _ => decide (f ≠ nonce.getD f)
    | _ => false

/-- The fields of `ethers::types::Transaction` the simulation core reads. -/
structure Transaction where
  from_ : Address
  to_ : Option Address
  nonce : Nat
deriving DecidableEq

/-- `ethers::types::StateDiff`: the per-account diff map of one trace,
embedded as an association list (the trace collaborator produces one entry
per account, so keys are unique in well-formed data). -/
abbrev StateDiff := List (Address × AccountDiff)

/-- `BTreeMap::get` on the state-diff map. -/
def stateGet (sd : StateDiff) (a : Address) : Option AccountDiff :=
  (sd.find? (fun p => p.1 == a)).map Prod.snd

/-- `ethers::types::Call`, restricted to the fields `parse_tx_trace` reads. -/
structure Call where
  from_ : Address
  to_ : Address
  input : List Char
  value : Nat
deriving DecidableEq

/-- `ethers::types::Create`, restricted to the fields `parse_tx_trace` reads. -/
structure Create where
  from_ : Address
  init : List Char
  value : Nat
deriving DecidableEq

/-- `ethers::types::Action`.  The `Suicide` and `Reward` payloads are omitted:
`parse_tx_trace` maps both to `None` without reading them. -/
inductive Action where
  | call (d : Call) : Action
  | create (d : Create) : Action
  | suicide : Action
  | reward : Action
deriving DecidableEq

/-- One node of the execution call tree (`ethers::types::TransactionTrace`),
restricted to the fields `trace_to_tx` and `parse_tx_trace` read. -/
structure TransactionTrace where
  trace_address : List Nat
  subtraces : Nat
  action : Action
deriving DecidableEq

/-- `ethers::types::BlockTrace`, restricted to the two requested pieces
(`TraceType::Trace` and `TraceType::StateDiff`). -/
structure BlockTrace where
  trace : Option (List TransactionTrace)
  state_diff : Option StateDiff
deriving DecidableEq

/-- `ethers::types::TransactionRequest`; `to` collapses `NameOrAddress` to its
`Address` constructor, the only one the code produces. -/
structure TransactionRequest where
  chain_id : Option Nat
  from_ : Option Address
  to_ : Option Address
  data : Option (List Char)
  value : Option Nat
  gas : Option Nat
  gas_price : Option Nat
  nonce : Option Nat
deriving DecidableEq

/-- The identity state of `Simulate` used by the pure code: the signer address
(`self.signer().address()`) and the optional simulation-contract override
(`self.contract`). -/
structure Simulate where
  signer : Address
  contract : Option Address
deriving DecidableEq

/-- Fuel-indexed scan of Rust `str::replace`: leftmost-first, non-overlapping
replacement of `pat` by `rep`.  With `fuel ≥ s.length` and a nonempty pattern
(the only use: a 40-character address encoding) this is exactly
`s.replace(pat, rep)`. -/
def strReplaceAux (pat rep : List Char) : Nat → List Char → List Char
  | 0, s => s
  | _ + 1, [] => []
  | fuel + 1, c :: rest =>
      if pat.isPrefixOf (c :: rest) then
        rep ++ strReplaceAux pat rep fuel ((c :: rest).drop pat.length)
      else
        c :: strReplaceAux pat rep fuel rest

/-- Rust `str::replace` on character lists. -/
def strReplace (s pat rep : List Char) : List Char :=
  strReplaceAux pat rep s.length s

/-- `mock_tx_data` (simulate.rs, lines 194-199):
`format!("{data:x}")` produces `"0x" ++ data` (lowercase hex), the textual
replacement substitutes every occurrence of the caller's hex encoding, and
`parse::<Bytes>().unwrap()` strips the `0x` prefix again (the replacement of
one 40-hex-digit string by another keeps the string parseable). -/
def mock_tx_data (data from_ to_ : List Char) : List Char :=
  (strReplace ('0' :: 'x' :: data) from_ to_).drop 2

/-- `Simulate::parse_tx_trace` (simulate.rs, lines 154-191): rewrite one trace
entry into a replayable request, or `none` for non-call, non-create actions. -/
def Simulate.parse_tx_trace (s : Simulate) (trace : TransactionTrace) : Option TransactionRequest :=
  match trace.action with
  | Action.call d =>
      some { chain_id := none
             from_ := some s.signer
             to_ := some d.to_
             data := some (mock_tx_data d.input d.from_ (s.contract.getD s.signer))
             value := some d.value
             gas := none
             gas_price := none
             nonce := none }
  | Action.create d =>
      some { chain_id := none
             from_ := some s.signer
             to_ := none
             data := some (mock_tx_data d.init d.from_ (s.contract.getD s.signer))
             value := some d.value
             gas := none
             gas_price := none
             nonce := none }
  | _ => none

/-- The key accumulation of `trace_to_tx` (simulate.rs, lines 124-127):
iterate the path in reverse, adding `v * 2^i + 1` for the `i`-th visited
component. -/
def traceKeyAux : List Nat → Nat → Nat
  | [], _ => 0
  | v :: rest, i => v * 2 ^ i + 1 + traceKeyAux rest (i + 1)

/-- The integer key computed for one trace address. -/
def traceKey (p : List Nat) : Nat :=
  traceKeyAux p.reverse 0

/-- One `HashMap::insert` step of the key-to-entry map. -/
def traceInsert (m : Nat → Option TransactionTrace) (t : TransactionTrace) :
    Nat → Option TransactionTrace :=
  fun k => if k = traceKey t.trace_address then some t else m k

/-- The `trace_map` built in `trace_to_tx` (simulate.rs, lines 122-129):
entries are inserted in list order, a later entry with the same key
overwrites an earlier one. -/
def traceMap (l : List TransactionTrace) : Nat → Option TransactionTrace :=
  l.foldl traceInsert (fun _ => none)

/-- The `for i in 1..=subtraces` loop of `trace_to_tx` (simulate.rs, lines
137-145): look each direct-child key up (`unwrap`, modelled as `none` on a
missing key) and keep the entries that rewrite; `internalCalls s m n` runs the
loop for `i = 1, ..., n`. -/
def internalCalls (s : Simulate) (m : Nat → Option TransactionTrace) :
    Nat → Option (List TransactionRequest)
  | 0 => some []
  | n + 1 =>
      match internalCalls s m n with
      | none => none
      | some acc =>
          match m (n + 1) with
          | none => none
          | some t =>
              match s.parse_tx_trace t with
              | some tx => some (acc ++ [tx])
              | none => some acc

/-- `Simulate::trace_to_tx` (simulate.rs, lines 119-152).  A `none` result
models the `unwrap` panics on the two map lookups; `some queue` is the value
the Rust function returns. -/
def Simulate.trace_to_tx (s : Simulate) (trace : BlockTrace) :
    Option (List (List TransactionRequest)) :=
  match trace.trace with
  | none => some []
  | some trace_list =>
      let m := traceMap trace_list
      match m 0 with
      | none => none
      | some origin_call =>
          let batch0 : List (List TransactionRequest) :=
            match s.parse_tx_trace origin_call with
            | some tx => [[tx]]
            | none => []
          match internalCalls s m origin_call.subtraces with
          | none => none
          | some internal_tx_list =>
              some (if internal_tx_list.length > 0 then batch0 ++ [internal_tx_list] else batch0)

/-- The pure profit-detection part of `Simulate::get_valuable_trace`
(simulate.rs, lines 81-111), after the RPC `trace_call` has produced the
`BlockTrace` (the network fetch is an external collaborator). -/
def Simulate.get_valuable_trace (tx : Transaction) (trace : BlockTrace) :
    Option (BlockTrace × Nat) :=
  match trace.state_diff with
  | none => none
  | some state_diff =>
      match stateGet state_diff tx.from_ with
      | none => none
      | some account_diff =>
          let from_account_diff := AnalyzeAccountDiff.run account_diff (some tx.nonce)
          if from_account_diff.increase_balance && !from_account_diff.invalid_nonce then
            some (trace, from_account_diff.balance_diff)
          else
            match tx.to_ with
            | none => none
            | some to_acct =>
                match stateGet state_diff to_acct with
                | none => none
                | some account_diff2 =>
                    let to_account_diff := AnalyzeAccountDiff.run account_diff2 none
                    if to_account_diff.increase_balance && !to_account_diff.invalid_nonce
                        && decide (to_account_diff.balance_diff > from_account_diff.balance_diff) then
                      some (trace, to_account_diff.balance_diff)
                    else
                      none

/-- The `U256` profit component of `Simulate::get_valuable_trace`, absent when
no valuable trace is returned. -/
def valuableProfit (tx : Transaction) (trace : BlockTrace) : Option Nat :=
  (Simulate.get_valuable_trace tx trace).map Prod.snd

/-- Result record of `DiffAnalysis::init`.  Modelled from the spec: the module
`src/utils/simulate/state/base.rs` defining `DiffAnalysis` is not in the
source tree; `state/eth.rs` reads the fields `increase_balance`,
`balance_diff` and `invalid_nonce` of it, and spec section 4.1 specifies the
Account-Diff Analyzer that produces them. -/
structure DiffAnalysis where
  increase_balance : Bool
  balance_diff : Nat
  invalid_nonce : Bool
deriving DecidableEq

/-- Modelled from the spec: `DiffAnalysis::init` (`state/base.rs`, absent from
the source tree), following spec section 4.1 word by word: `increased` iff the
balance diff is changed with `to > from`; magnitude the absolute difference of
a changed balance, else zero; `nonceInvalid` iff the nonce diff is changed and
its recorded before-value differs from a supplied expected nonce, never when
none is supplied. -/
def DiffAnalysis.init (diff : AccountDiff) (nonce : Option Nat) : DiffAnalysis where
  increase_balance :=
    match diff.balance with
    | Diff.changed f t => decide (t > f)
    | _ => false
  balance_diff :=
    match diff.balance with
    | Diff.changed f t => max f t - min f t
    | _ => 0
  invalid_nonce :=
    match diff.nonce, nonce with
    | Diff.changed f _, some e => decide (f ≠ e)
    | _, _ => false

namespace Eth

/-- `run` (state/eth.rs, lines 5-34): the standalone native-token profit
analysis.  Note the two `profit += ...` accumulations: unlike
`get_valuable_trace`, the sender branch does not return early. -/
def run (tx : Transaction) (trace : BlockTrace) : Option Nat :=
  let profit : Nat :=
    match trace.state_diff with
    | none => 0
    | some state_diff =>
        match stateGet state_diff tx.from_ with
        | none => 0
        | some account_diff =>
            let from_account_diff := DiffAnalysis.init account_diff (some tx.nonce)
            let p1 : Nat :=
              if from_account_diff.increase_balance && !from_account_diff.invalid_nonce then
                from_account_diff.balance_diff
              else 0
            let p2 : Nat :=
              match tx.to_ with
              | none => 0
              | some to_acct =>
                  match stateGet state_diff to_acct with
                  | none => 0
                  | some account_diff2 =>
                      let to_account_diff := DiffAnalysis.init account_diff2 none
                      if to_account_diff.increase_balance && !to_account_diff.invalid_nonce
                          && decide (to_account_diff.balance_diff > from_account_diff.balance_diff) then
                        to_account_diff.balance_diff
                      else 0
            p1 + p2
  if profit = 0 then none else some profit

end Eth

/- Concrete data for the counterexamples and witnesses below.  Addresses only
act as map keys in the profit-detection claims, so short placeholder
encodings suffice there; the `mock_tx_data` claims use full 40-character
encodings. -/

/-- Transaction for the profit tie-break counterexample: sender `['s']`,
receiver `['r']`, nonce 7. -/
def txC1 : Transaction := { from_ := ['s'], to_ := some ['r'], nonce := 7 }

/-- State diff for the tie-break counterexample: the sender gains 1 with a
consistent nonce transition 7 → 8, the receiver gains 5. -/
def sdC1 : StateDiff :=
  [ (['s'], { balance := Diff.changed 0 1, nonce := Diff.changed 7 8 }),
    (['r'], { balance := Diff.changed 0 5, nonce := Diff.same }) ]

/-- Block trace wrapping `sdC1`. -/
def trC1 : BlockTrace := { trace := none, state_diff := some sdC1 }

/-- Transaction for the implementation-agreement counterexample. -/
def txC6 : Transaction := { from_ := ['p'], to_ := some ['q'], nonce := 3 }

/-- State diff where both the sender branch (gain 2, nonce untouched) and the
receiver branch (gain 9 > 2) fire. -/
def sdC6 : StateDiff :=
  [ (['p'], { balance := Diff.changed 10 12, nonce := Diff.same }),
    (['q'], { balance := Diff.changed 0 9, nonce := Diff.same }) ]

/-- Block trace wrapping `sdC6`. -/
def trC6 : BlockTrace := { trace := none, state_diff := some sdC6 }

/-- A receiver-less transaction from the `sdC1` sender, used to witness the
agreement of the two profit implementations outside the double-count case. -/
def txC6w : Transaction := { from_ := ['s'], to_ := none, nonce := 7 }

/-- The end-to-end analyzer scenario of spec section 8: balance 100 → 150,
nonce 5 → 6. -/
def adC5 : AccountDiff := { balance := Diff.changed 100 150, nonce := Diff.changed 5 6 }

/-- A replaying identity with signer `['e']` and no contract override. -/
def simE : Simulate := { signer := ['e'], contract := none }

/-- A root trace entry that is not rewritable (reward action) but declares one
direct subtrace. -/
def rootO : TransactionTrace := { trace_address := [], subtraces := 1, action := Action.reward }

/-- The single direct child of `rootO`, a plain call. -/
def child0 : TransactionTrace :=
  { trace_address := [0], subtraces := 0,
    action := Action.call { from_ := ['a'], to_ := ['b'], input := [], value := 3 } }

/-- The request `child0` rewrites to under `simE`. -/
def creq0 : TransactionRequest :=
  { chain_id := none, from_ := some ['e'], to_ := some ['b'], data := some [],
    value := some 3, gas := none, gas_price := none, nonce := none }

/-- A rewritable root entry declaring no subtraces. -/
def rootC : TransactionTrace :=
  { trace_address := [], subtraces := 0,
    action := Action.call { from_ := ['a'], to_ := ['b'], input := [], value := 0 } }

/-- A rewritable root declaring exactly one subtrace. -/
def rootC1 : TransactionTrace :=
  { trace_address := [], subtraces := 1,
    action := Action.call { from_ := ['a'], to_ := ['b'], input := [], value := 0 } }

/-- The direct child of `rootC1`, at path `[0]`. -/
def childC1 : TransactionTrace :=
  { trace_address := [0], subtraces := 0,
    action := Action.call { from_ := ['c'], to_ := ['d'], input := ['a', 'b'], value := 2 } }

/-- The request `rootC1` rewrites to under `simE`. -/
def rootReq1 : TransactionRequest :=
  { chain_id := none, from_ := some ['e'], to_ := some ['b'], data := some [],
    value := some 0, gas := none, gas_price := none, nonce := none }

/-- The request `childC1` rewrites to under `simE`. -/
def childReq1 : TransactionRequest :=
  { chain_id := none, from_ := some ['e'], to_ := some ['d'], data := some ['a', 'b'],
    value := some 2, gas := none, gas_price := none, nonce := none }

/-- The hex digits of the fixed selector `0x00000001` used by the repository's
own `mock_tx_data` tests. -/
def eight : List Char := ['0', '0', '0', '0', '0', '0', '0', '1']

/-- A periodic 40-character address encoding: `00000001` repeated five times.
Its first occurrence in `0x00000001 ++ fromP` starts at string position 2,
before the appended copy. -/
def fromP : Address := eight ++ eight ++ eight ++ eight ++ eight

/-- A non-periodic substitute address encoding. -/
def toA : Address := List.replicate 40 'a'

/-- A generic original address encoding for the witness. -/
def fromB : Address := List.replicate 40 'b'

/-- A generic substitute address encoding for the witness. -/
def toC : Address := List.replicate 40 'c'


/- ------------------------------------------------------------------ -/
/- Helper lemmas                                                       -/
/- ------------------------------------------------------------------ -/

/-- A detected balance increase always has a positive magnitude. -/
theorem increase_balance_pos (d : AccountDiff) (n : Option Nat)
    (h : (AnalyzeAccountDiff.run d n).increase_balance = true) :
    0 < (AnalyzeAccountDiff.run d n).balance_diff := by
  obtain ⟨b, no⟩ := d
  cases b <;> simp [AnalyzeAccountDiff.run] at h ⊢
  split <;> omega

/-- Sender branch of `get_valuable_trace`: a valid balance increase of the
sender short-circuits the function with the sender magnitude. -/
theorem get_valuable_trace_sender (tx : Transaction) (trace : BlockTrace) (sd : StateDiff)
    (ad : AccountDiff) (hsd : trace.state_diff = some sd)
    (hget : stateGet sd tx.from_ = some ad)
    (hinc : (AnalyzeAccountDiff.run ad (some tx.nonce)).increase_balance = true)
    (hval : (AnalyzeAccountDiff.run ad (some tx.nonce)).invalid_nonce = false) :
    Simulate.get_valuable_trace tx trace
      = some (trace, (AnalyzeAccountDiff.run ad (some tx.nonce)).balance_diff) := by
  unfold Simulate.get_valuable_trace
  rw [hsd]
  simp only [hget, hinc, hval]
  simp

/-- Receiver branch of `get_valuable_trace`: when the sender branch does not
fire, a strictly larger valid receiver increase is returned. -/
theorem get_valuable_trace_receiver (tx : Transaction) (trace : BlockTrace) (sd : StateDiff)
    (adF : AccountDiff) (t : Address) (adT : AccountDiff)
    (hsd : trace.state_diff = some sd) (hget : stateGet sd tx.from_ = some adF)
    (hsender : ((AnalyzeAccountDiff.run adF (some tx.nonce)).increase_balance
        && !(AnalyzeAccountDiff.run adF (some tx.nonce)).invalid_nonce) = false)
    (hto : tx.to_ = some t) (hgetT : stateGet sd t = some adT)
    (hinc : (AnalyzeAccountDiff.run adT none).increase_balance = true)
    (hval : (AnalyzeAccountDiff.run adT none).invalid_nonce = false)
    (hbig : (AnalyzeAccountDiff.run adF (some tx.nonce)).balance_diff
        < (AnalyzeAccountDiff.run adT none).balance_diff) :
    Simulate.get_valuable_trace tx trace
      = some (trace, (AnalyzeAccountDiff.run adT none).balance_diff) := by
  unfold Simulate.get_valuable_trace
  rw [hsd]
  simp only [hget, hsender, hto, hgetT, hinc, hval]
  simp [hbig]

/- ------------------------------------------------------------------ -/
/- C5: the account-diff analyzer                                       -/
/- ------------------------------------------------------------------ -/

/-- C5: `AnalyzeAccountDiff::run` reports `increase_balance` exactly for a
changed balance with `to > from`, reports the absolute balance difference as
magnitude (zero for an unchanged balance), and flags `invalid_nonce` exactly
when a changed nonce diff has a before-value differing from a supplied
expected nonce -- never when no expected nonce is supplied. -/
theorem analyze_account_diff_spec (d : AccountDiff) (n : Option Nat) :
    ((AnalyzeAccountDiff.run d n).increase_balance = true ↔
      ∃ f t, d.balance = Diff.changed f t ∧ f < t)
    ∧ (∀ f t, d.balance = Diff.changed f t →
        (AnalyzeAccountDiff.run d n).balance_diff = ((t : Int) - (f : Int)).natAbs)
    ∧ ((∀ f t, d.balance ≠ Diff.changed f t) →
        (AnalyzeAccountDiff.run d n).increase_balance = false
          ∧ (AnalyzeAccountDiff.run d n).balance_diff = 0)
    ∧ ((AnalyzeAccountDiff.run d n).invalid_nonce = true ↔
        ∃ f t e, d.nonce = Diff.changed f t ∧ n = some e ∧ f ≠ e)
    ∧ (n = none → (AnalyzeAccountDiff.run d n).invalid_nonce = false) := by
  obtain ⟨b, no⟩ := d
  refine ⟨?_, ?_, ?_, ?_, ?_⟩
  · cases b <;> simp [AnalyzeAccountDiff.run]
    constructor
    · intro h
      exact ⟨_, _, ⟨rfl, rfl⟩, h⟩
    · rintro ⟨f, t, ⟨rfl, rfl⟩, h⟩
      exact h
  · intro f t hb
    cases b with
    | changed f2 t2 =>
        obtain ⟨rfl, rfl⟩ : f2 = f ∧ t2 = t := by simpa using hb
        simp only [AnalyzeAccountDiff.run]
        split <;> omega
    | same => simp at hb
    | born v => simp at hb
    | died v => simp at hb
  · intro hb
    cases b <;> simp_all [AnalyzeAccountDiff.run]
  · cases no <;> cases n <;> simp [AnalyzeAccountDiff.run]
  · intro hn
    subst hn
    cases no <;> simp [AnalyzeAccountDiff.run]

/-- Witness for C5 at the end-to-end scenario of spec section 8 (balance
100 → 150, nonce 5 → 6). -/
theorem analyze_account_diff_spec_witness :
    (AnalyzeAccountDiff.run adC5 (some 5)).balance_diff = ((150 : Int) - (100 : Int)).natAbs
      ∧ (AnalyzeAccountDiff.run adC5 none).invalid_nonce = false :=
  ⟨(analyze_account_diff_spec adC5 (some 5)).2.1 100 150 rfl,
   (analyze_account_diff_spec adC5 none).2.2.2.2 rfl⟩

/- ------------------------------------------------------------------ -/
/- C2: the path-to-key encoding                                        -/
/- ------------------------------------------------------------------ -/

/-- The empty path keys to 0. -/
theorem traceKey_nil : traceKey [] = 0 := rfl

/-- A one-step path `[i]` keys to `i + 1`. -/
theorem traceKey_singleton (i : Nat) : traceKey [i] = i + 1 := by
  simp [traceKey, traceKeyAux]

/-- Every key contribution is at least 1. -/
theorem traceKeyAux_pos (l : List Nat) (i : Nat) (h : l ≠ []) : 0 < traceKeyAux l i := by
  cases l with
  | nil => exact absurd rfl h
  | cons v rest => simp [traceKeyAux]

/-- A nonempty path never keys to 0. -/
theorem traceKey_pos (p : List Nat) (h : p ≠ []) : 0 < traceKey p :=
  traceKeyAux_pos p.reverse 0 (by simpa using h)

/-- C2 counterexample: the distinct paths `[1]` and `[0, 0]` -- both of length
at most 8 with all components at most 16 -- collide on key 2, refuting the
claimed injectivity bound (the empty path does key to 0). -/
theorem traceKey_collision :
    traceKey [1] = 2 ∧ traceKey [0, 0] = 2 ∧ ([1] : List Nat) ≠ [0, 0]
      ∧ ([1] : List Nat).length ≤ 8 ∧ ([0, 0] : List Nat).length ≤ 8
      ∧ (∀ x ∈ ([1] : List Nat), x ≤ 16) ∧ (∀ x ∈ ([0, 0] : List Nat), x ≤ 16)
      ∧ traceKey [] = 0 := by decide

/-- C2 (amended): the empty path keys to 0 and is the only path with key 0,
and the encoding is injective on paths of length at most 1; injectivity
already fails at length 2 (see the counterexample). -/
theorem traceKey_small_inj :
    traceKey [] = 0
    ∧ (∀ p : List Nat, traceKey p = 0 → p = [])
    ∧ (∀ p q : List Nat, p.length ≤ 1 → q.length ≤ 1 → p ≠ q → traceKey p ≠ traceKey q) := by
  refine ⟨rfl, ?_, ?_⟩
  · intro p hp
    by_contra hne
    exact absurd hp.symm (Nat.ne_of_lt (traceKey_pos p hne))
  · intro p q hp hq hne
    have hp2 : p = [] ∨ ∃ a, p = [a] := by
      rcases p with _ | ⟨a, _ | ⟨a2, p⟩⟩
      · exact Or.inl rfl
      · exact Or.inr ⟨a, rfl⟩
      · simp at hp
    have hq2 : q = [] ∨ ∃ b, q = [b] := by
      rcases q with _ | ⟨b, _ | ⟨b2, q⟩⟩
      · exact Or.inl rfl
      · exact Or.inr ⟨b, rfl⟩
      · simp at hq
    rcases hp2 with rfl | ⟨a, rfl⟩ <;> rcases hq2 with rfl | ⟨b, rfl⟩
    · exact absurd rfl hne
    · rw [traceKey_nil, traceKey_singleton]
      omega
    · rw [traceKey_nil, traceKey_singleton]
      omega
    · have hab : a ≠ b := fun h => hne (by rw [h])
      rw [traceKey_singleton, traceKey_singleton]
      omega

/-- Witness for C2 at the concrete paths `[]` and `[3]`. -/
theorem traceKey_small_inj_witness : traceKey [] ≠ traceKey [3] :=
  traceKey_small_inj.2.2 [] [3] (by decide) (by decide) (by decide)

/- ------------------------------------------------------------------ -/
/- C1: the profit tie-break                                            -/
/- ------------------------------------------------------------------ -/

/-- C1 counterexample: the sender diff of `sdC1` analyses to a valid increase
of magnitude S = 1 and the receiver diff to a valid increase of magnitude
R = 5 > S, yet `get_valuable_trace` returns S = 1 and the standalone
`state/eth.rs` run returns S + R = 6 -- neither returns R = 5 as claimed. -/
theorem profit_tie_break_cex :
    stateGet sdC1 txC1.from_
        = some { balance := Diff.changed 0 1, nonce := Diff.changed 7 8 }
      ∧ AnalyzeAccountDiff.run { balance := Diff.changed 0 1, nonce := Diff.changed 7 8 }
          (some txC1.nonce)
        = { increase_balance := true, balance_diff := 1, invalid_nonce := false }
      ∧ txC1.to_ = some ['r']
      ∧ stateGet sdC1 ['r'] = some { balance := Diff.changed 0 5, nonce := Diff.same }
      ∧ AnalyzeAccountDiff.run { balance := Diff.changed 0 5, nonce := Diff.same } none
        = { increase_balance := true, balance_diff := 5, invalid_nonce := false }
      ∧ (5 : Nat) > 1
      ∧ valuableProfit txC1 trC1 = some 1
      ∧ Eth.run txC1 trC1 = some 6
      ∧ valuableProfit txC1 trC1 ≠ some 5
      ∧ Eth.run txC1 trC1 ≠ some 5 := by decide

/-- C1 (amended): when the sender diff analyses to a valid increase of
magnitude S, `get_valuable_trace` returns S whatever the receiver diff holds
(in particular also when the receiver magnitude exceeds S); the receiver
magnitude R is returned standalone exactly when the sender branch does not
fire and the receiver analyses to a valid increase with R > S. -/
theorem profit_sender_preferred (tx : Transaction) (trace : BlockTrace) (sd : StateDiff)
    (adF : AccountDiff) (hsd : trace.state_diff = some sd)
    (hget : stateGet sd tx.from_ = some adF) :
    ((AnalyzeAccountDiff.run adF (some tx.nonce)).increase_balance = true →
      (AnalyzeAccountDiff.run adF (some tx.nonce)).invalid_nonce = false →
      valuableProfit tx trace = some (AnalyzeAccountDiff.run adF (some tx.nonce)).balance_diff)
    ∧ (∀ t adT,
        ((AnalyzeAccountDiff.run adF (some tx.nonce)).increase_balance
            && !(AnalyzeAccountDiff.run adF (some tx.nonce)).invalid_nonce) = false →
        tx.to_ = some t → stateGet sd t = some adT →
        (AnalyzeAccountDiff.run adT none).increase_balance = true →
        (AnalyzeAccountDiff.run adT none).invalid_nonce = false →
        (AnalyzeAccountDiff.run adF (some tx.nonce)).balance_diff
            < (AnalyzeAccountDiff.run adT none).balance_diff →
        valuableProfit tx trace = some (AnalyzeAccountDiff.run adT none).balance_diff) := by
  constructor
  · intro hinc hval
    unfold valuableProfit
    rw [get_valuable_trace_sender tx trace sd adF hsd hget hinc hval]
    rfl
  · intro t adT hsender hto hgetT hinc hval hbig
    unfold valuableProfit
    rw [get_valuable_trace_receiver tx trace sd adF t adT hsd hget hsender hto hgetT hinc hval hbig]
    rfl

/-- Witness for C1 at `txC1`/`trC1`: the sender branch fires and its
magnitude 1 is returned. -/
theorem profit_sender_preferred_witness :
    valuableProfit txC1 trC1
      = some (AnalyzeAccountDiff.run
          { balance := Diff.changed 0 1, nonce := Diff.changed 7 8 } (some txC1.nonce)).balance_diff :=
  (profit_sender_preferred txC1 trC1 sdC1
      { balance := Diff.changed 0 1, nonce := Diff.changed 7 8 } rfl (by decide)).1
    (by decide) (by decide)

/- ------------------------------------------------------------------ -/
/- C3: the sender branch short-circuits                                -/
/- ------------------------------------------------------------------ -/

/-- C3: whenever the sender has a state-diff entry whose analysis (against
the transaction nonce) is a valid increase, `get_valuable_trace` returns
exactly the sender magnitude together with the trace -- for every content of
the receiver entry, so the receiver is never the source of the result in
that case. -/
theorem profit_sender_branch (tx : Transaction) (trace : BlockTrace) (sd : StateDiff)
    (ad : AccountDiff) (hsd : trace.state_diff = some sd)
    (hget : stateGet sd tx.from_ = some ad)
    (hinc : (AnalyzeAccountDiff.run ad (some tx.nonce)).increase_balance = true)
    (hval : (AnalyzeAccountDiff.run ad (some tx.nonce)).invalid_nonce = false) :
    Simulate.get_valuable_trace tx trace
      = some (trace, (AnalyzeAccountDiff.run ad (some tx.nonce)).balance_diff) :=
  get_valuable_trace_sender tx trace sd ad hsd hget hinc hval

/-- Witness for C3 at `txC1`/`trC1`. -/
theorem profit_sender_branch_witness :
    Simulate.get_valuable_trace txC1 trC1
      = some (trC1, (AnalyzeAccountDiff.run
          { balance := Diff.changed 0 1, nonce := Diff.changed 7 8 } (some txC1.nonce)).balance_diff) :=
  profit_sender_branch txC1 trC1 sdC1
    { balance := Diff.changed 0 1, nonce := Diff.changed 7 8 } rfl (by decide)
    (by decide) (by decide)

/- ------------------------------------------------------------------ -/
/- C6: the two profit implementations                                  -/
/- ------------------------------------------------------------------ -/

/-- The spec-modelled `DiffAnalysis::init` classifies increases exactly as
`AnalyzeAccountDiff::run` does. -/
theorem DiffAnalysis.init_increase (d : AccountDiff) (n : Option Nat) :
    (DiffAnalysis.init d n).increase_balance = (AnalyzeAccountDiff.run d n).increase_balance := rfl

/-- The spec-modelled `DiffAnalysis::init` computes the same magnitude as
`AnalyzeAccountDiff::run`. -/
theorem DiffAnalysis.init_diff (d : AccountDiff) (n : Option Nat) :
    (DiffAnalysis.init d n).balance_diff = (AnalyzeAccountDiff.run d n).balance_diff := by
  obtain ⟨b, no⟩ := d
  cases b <;> simp [DiffAnalysis.init, AnalyzeAccountDiff.run, Nat.max_def, Nat.min_def] <;>
    split <;> split <;> omega

/-- The spec-modelled `DiffAnalysis::init` flags invalid nonces exactly as
`AnalyzeAccountDiff::run` does. -/
theorem DiffAnalysis.init_invalid (d : AccountDiff) (n : Option Nat) :
    (DiffAnalysis.init d n).invalid_nonce = (AnalyzeAccountDiff.run d n).invalid_nonce := by
  obtain ⟨b, no⟩ := d
  cases no <;> cases n <;> simp [DiffAnalysis.init, AnalyzeAccountDiff.run]

/-- C6 counterexample: on `txC6`/`trC6` both the sender branch (magnitude 2)
and the receiver branch (magnitude 9) fire; `get_valuable_trace` reports 2
while the standalone run reports 2 + 9 = 11. -/
theorem profit_impls_disagree :
    valuableProfit txC6 trC6 = some 2
      ∧ Eth.run txC6 trC6 = some 11
      ∧ valuableProfit txC6 trC6 ≠ Eth.run txC6 trC6 := by decide

/-- C6 (amended): the inline profit of `get_valuable_trace` and the
standalone `state/eth.rs` run agree on every input on which the sender
branch and the receiver branch do not both fire; when both fire, the former
returns the sender magnitude and the latter the sum of both magnitudes. -/
theorem profit_impls_agree (tx : Transaction) (trace : BlockTrace)
    (h : ¬ ∃ sd adF t adT,
        trace.state_diff = some sd ∧ stateGet sd tx.from_ = some adF
          ∧ (AnalyzeAccountDiff.run adF (some tx.nonce)).increase_balance = true
          ∧ (AnalyzeAccountDiff.run adF (some tx.nonce)).invalid_nonce = false
          ∧ tx.to_ = some t ∧ stateGet sd t = some adT
          ∧ (AnalyzeAccountDiff.run adT none).increase_balance = true
          ∧ (AnalyzeAccountDiff.run adT none).invalid_nonce = false
          ∧ (AnalyzeAccountDiff.run adF (some tx.nonce)).balance_diff
              < (AnalyzeAccountDiff.run adT none).balance_diff) :
    valuableProfit tx trace = Eth.run tx trace := by
  cases hsd : trace.state_diff with
  | none => simp [valuableProfit, Simulate.get_valuable_trace, Eth.run, hsd]
  | some sd =>
      cases hget : stateGet sd tx.from_ with
      | none => simp [valuableProfit, Simulate.get_valuable_trace, Eth.run, hsd, hget]
      | some adF =>
          by_cases hf : ((AnalyzeAccountDiff.run adF (some tx.nonce)).increase_balance
              && !(AnalyzeAccountDiff.run adF (some tx.nonce)).invalid_nonce) = true
          · obtain ⟨hfi, hfv0⟩ := Bool.and_eq_true_iff.mp hf
            have hfv : (AnalyzeAccountDiff.run adF (some tx.nonce)).invalid_nonce = false := by
              simpa using hfv0
            have hpos := increase_balance_pos adF (some tx.nonce) hfi
            have hL : valuableProfit tx trace
                = some (AnalyzeAccountDiff.run adF (some tx.nonce)).balance_diff := by
              unfold valuableProfit
              rw [get_valuable_trace_sender tx trace sd adF hsd hget hfi hfv]
              rfl
            rw [hL]
            cases hto : tx.to_ with
            | none =>
                simp only [Eth.run, hsd, hget, hto, DiffAnalysis.init_increase,
                  DiffAnalysis.init_diff, DiffAnalysis.init_invalid, hf, if_true]
                rw [if_neg (by omega)]
                simp
            | some t =>
                cases hgetT : stateGet sd t with
                | none =>
                    simp only [Eth.run, hsd, hget, hto, hgetT, DiffAnalysis.init_increase,
                      DiffAnalysis.init_diff, DiffAnalysis.init_invalid, hf, if_true]
                    rw [if_neg (by omega)]
                    simp
                | some adT =>
                    by_cases hr : ((AnalyzeAccountDiff.run adT none).increase_balance
                        && !(AnalyzeAccountDiff.run adT none).invalid_nonce
                        && decide ((AnalyzeAccountDiff.run adT none).balance_diff
                            > (AnalyzeAccountDiff.run adF (some tx.nonce)).balance_diff)) = true
                    · exfalso
                      obtain ⟨hr1, hr3⟩ := Bool.and_eq_true_iff.mp hr
                      obtain ⟨hri, hrv0⟩ := Bool.and_eq_true_iff.mp hr1
                      have hrv : (AnalyzeAccountDiff.run adT none).invalid_nonce = false := by
                        simpa using hrv0
                      exact h ⟨sd, adF, t, adT, hsd, hget, hfi, hfv, hto, hgetT, hri, hrv,
                        of_decide_eq_true hr3⟩
                    · have hr2 : ((AnalyzeAccountDiff.run adT none).increase_balance
                          && !(AnalyzeAccountDiff.run adT none).invalid_nonce
                          && decide ((AnalyzeAccountDiff.run adT none).balance_diff
                              > (AnalyzeAccountDiff.run adF (some tx.nonce)).balance_diff))
                            = false := by
                        simpa using hr
                      simp only [Eth.run, hsd, hget, hto, hgetT, DiffAnalysis.init_increase,
                        DiffAnalysis.init_diff, DiffAnalysis.init_invalid, hf, if_true, hr2,
                        if_false]
                      rw [if_neg (by omega)]
                      simp
          · have hf2 : ((AnalyzeAccountDiff.run adF (some tx.nonce)).increase_balance
                && !(AnalyzeAccountDiff.run adF (some tx.nonce)).invalid_nonce) = false := by
              simpa using hf
            cases hto : tx.to_ with
            | none =>
                simp [valuableProfit, Simulate.get_valuable_trace, Eth.run, hsd, hget, hto, hf2,
                  DiffAnalysis.init_increase, DiffAnalysis.init_diff, DiffAnalysis.init_invalid]
            | some t =>
                cases hgetT : stateGet sd t with
                | none =>
                    simp [valuableProfit, Simulate.get_valuable_trace, Eth.run, hsd, hget, hto,
                      hgetT, hf2, DiffAnalysis.init_increase, DiffAnalysis.init_diff,
                      DiffAnalysis.init_invalid]
                | some adT =>
                    by_cases hr : ((AnalyzeAccountDiff.run adT none).increase_balance
                        && !(AnalyzeAccountDiff.run adT none).invalid_nonce
                        && decide ((AnalyzeAccountDiff.run adT none).balance_diff
                            > (AnalyzeAccountDiff.run adF (some tx.nonce)).balance_diff)) = true
                    · obtain ⟨hr1, hr3⟩ := Bool.and_eq_true_iff.mp hr
                      obtain ⟨hri, hrv0⟩ := Bool.and_eq_true_iff.mp hr1
                      have hrv : (AnalyzeAccountDiff.run adT none).invalid_nonce = false := by
                        simpa using hrv0
                      have hbig := of_decide_eq_true hr3
                      have hL : valuableProfit tx trace
                          = some (AnalyzeAccountDiff.run adT none).balance_diff := by
                        unfold valuableProfit
                        rw [get_valuable_trace_receiver tx trace sd adF t adT hsd hget hf2 hto
                          hgetT hri hrv hbig]
                        rfl
                      have hposT := increase_balance_pos adT none hri
                      rw [hL]
                      simp only [Eth.run, hsd, hget, hto, hgetT, DiffAnalysis.init_increase,
                        DiffAnalysis.init_diff, DiffAnalysis.init_invalid, hf2, if_false, hr,
                        if_true]
                      rw [if_neg (by omega)]
                      simp
                    · have hr2 : ((AnalyzeAccountDiff.run adT none).increase_balance
                          && !(AnalyzeAccountDiff.run adT none).invalid_nonce
                          && decide ((AnalyzeAccountDiff.run adT none).balance_diff
                              > (AnalyzeAccountDiff.run adF (some tx.nonce)).balance_diff))
                            = false := by
                        simpa using hr
                      simp [valuableProfit, Simulate.get_valuable_trace, Eth.run, hsd, hget, hto,
                        hgetT, hf2, hr2, DiffAnalysis.init_increase, DiffAnalysis.init_diff,
                        DiffAnalysis.init_invalid]

/-- Witness for C6 at the receiver-less transaction `txC6w` over `trC1`: only
the sender branch can fire, and the two implementations agree. -/
theorem profit_impls_agree_witness : valuableProfit txC6w trC1 = Eth.run txC6w trC1 :=
  profit_impls_agree txC6w trC1 (by
    rintro ⟨sd, adF, t, adT, hsd, hget, hfi, hfv, hto, hrest⟩
    simp [txC6w] at hto)

/- ------------------------------------------------------------------ -/
/- Trace-map helper lemmas                                             -/
/- ------------------------------------------------------------------ -/

/-- Folding inserts over entries none of which carry key `k` leaves the map
unchanged at `k`. -/
theorem foldl_traceInsert_no_key (l : List TransactionTrace)
    (m : Nat → Option TransactionTrace) (k : Nat)
    (h : ∀ t ∈ l, traceKey t.trace_address ≠ k) :
    l.foldl traceInsert m k = m k := by
  induction l generalizing m with
  | nil => rfl
  | cons t l ih =>
      rw [List.foldl_cons, ih (traceInsert m t) (fun u hu => h u (List.mem_cons_of_mem t hu))]
      have hk := h t (List.mem_cons_self t l)
      simp only [traceInsert]
      rw [if_neg (fun hkk => hk hkk.symm)]

/-- The map value at `k` is the entry `t` when `t` keys to `k` and no entry
inserted after `t` does. -/
theorem traceMap_lookup_at (l1 : List TransactionTrace) (t : TransactionTrace)
    (l2 : List TransactionTrace) (k : Nat) (hk : k = traceKey t.trace_address)
    (h2 : ∀ u ∈ l2, traceKey u.trace_address ≠ k) :
    traceMap (l1 ++ t :: l2) k = some t := by
  unfold traceMap
  rw [List.foldl_append, List.foldl_cons, foldl_traceInsert_no_key l2 _ k h2]
  simp [traceInsert, hk]

/-- In a trace of a root (empty path) followed by its direct children at
paths `[0], [1], ...`, the root owns key 0. -/
theorem traceMap_root (root : TransactionTrace) (children : List TransactionTrace)
    (hroot : root.trace_address = [])
    (hpaths : ∀ i (h : i < children.length), (children.get ⟨i, h⟩).trace_address = [i]) :
    traceMap (root :: children) 0 = some root := by
  have h := traceMap_lookup_at [] root children 0 ?_ ?_
  · simpa using h
  · rw [hroot]
    rfl
  · intro u hu
    obtain ⟨⟨i, hi⟩, rfl⟩ := List.mem_iff_get.mp hu
    rw [hpaths i hi, traceKey_singleton]
    omega

/-- In the same trace shape, key `i + 1` belongs to the `i`-th child. -/
theorem traceMap_child (root : TransactionTrace) (children : List TransactionTrace)
    (hpaths : ∀ i (h : i < children.length), (children.get ⟨i, h⟩).trace_address = [i])
    (i : Nat) (hi : i < children.length) :
    traceMap (root :: children) (i + 1) = some (children.get ⟨i, hi⟩) := by
  have h1 : children = children.take i ++ children.get ⟨i, hi⟩ :: children.drop (i + 1) := by
    rw [List.get_eq_getElem, ← List.drop_eq_getElem_cons hi, List.take_append_drop]
  have h2 : root :: children
      = (root :: children.take i) ++ children.get ⟨i, hi⟩ :: children.drop (i + 1) := by
    rw [List.cons_append, ← h1]
  rw [h2]
  refine traceMap_lookup_at (root :: children.take i) _ _ (i + 1) ?_ ?_
  · rw [hpaths i hi, traceKey_singleton]
  · intro u hu
    obtain ⟨⟨j, hj⟩, rfl⟩ := List.mem_iff_get.mp hu
    have hj2 : i + 1 + j < children.length := by
      have := hj
      simp [List.length_drop] at this
      omega
    have hu2 : (children.drop (i + 1)).get ⟨j, hj⟩ = children.get ⟨i + 1 + j, hj2⟩ := by
      simp only [List.get_eq_getElem, List.getElem_drop']
    rw [hu2, hpaths (i + 1 + j) hj2, traceKey_singleton]
    omega

/-- Taking one more element of a list appends its `n`-th element. -/
theorem take_succ_get {α : Type} (l : List α) (n : Nat) (h : n < l.length) :
    l.take (n + 1) = l.take n ++ [l.get ⟨n, h⟩] := by
  rw [List.take_succ]
  simp [List.getElem?_eq_getElem h]

/-- Running the child loop over a trace of a root and its fully rewritable
children collects exactly the first `n` child requests, in order. -/
theorem internalCalls_take (s : Simulate) (root : TransactionTrace)
    (children : List TransactionTrace) (childReqs : List TransactionRequest)
    (hpaths : ∀ i (h : i < children.length), (children.get ⟨i, h⟩).trace_address = [i])
    (hlen : childReqs.length = children.length)
    (hparse : ∀ i (h1 : i < children.length) (h2 : i < childReqs.length),
      s.parse_tx_trace (children.get ⟨i, h1⟩) = some (childReqs.get ⟨i, h2⟩))
    (n : Nat) (hn : n ≤ children.length) :
    internalCalls s (traceMap (root :: children)) n = some (childReqs.take n) := by
  induction n with
  | zero => rfl
  | succ n ih =>
      have hn2 : n ≤ children.length := Nat.le_of_succ_le hn
      have hnlt : n < children.length := hn
      have hnlt2 : n < childReqs.length := by omega
      unfold internalCalls
      rw [ih hn2, traceMap_child root children hpaths n hnlt]
      simp only [hparse n hnlt hnlt2]
      rw [← take_succ_get childReqs n hnlt2]

/-- The child loop succeeds (no `unwrap` panic) exactly when every key from
1 to `n` is present in the map. -/
theorem internalCalls_isSome_iff (s : Simulate) (m : Nat → Option TransactionTrace) (n : Nat) :
    (internalCalls s m n).isSome = true ↔
      ∀ i, 1 ≤ i → i ≤ n → (m i).isSome = true := by
  induction n with
  | zero =>
      constructor
      · intro _ i h1 h2
        omega
      · intro _
        rfl
  | succ n ih =>
      unfold internalCalls
      cases hprev : internalCalls s m n with
      | none =>
          constructor
          · intro hfalse
            simp at hfalse
          · intro hall
            exfalso
            have h2 := ih.mpr (fun i h1 h2 => hall i h1 (by omega))
            rw [hprev] at h2
            simp at h2
      | some acc =>
          have hprev2 : ∀ i, 1 ≤ i → i ≤ n → (m i).isSome = true :=
            ih.mp (by rw [hprev]; rfl)
          cases hm : m (n + 1) with
          | none =>
              constructor
              · intro hfalse
                simp at hfalse
              · intro hall
                have h2 := hall (n + 1) (by omega) (by omega)
                rw [hm] at h2
                simp at h2
          | some t =>
              constructor
              · intro _ i h1 h2
                rcases Nat.lt_or_ge i (n + 1) with hlt | hge
                · exact hprev2 i h1 (by omega)
                · have hi : i = n + 1 := by omega
                  subst hi
                  rw [hm]
                  rfl
              · intro _
                cases hp : s.parse_tx_trace t <;> simp [hp]

/- ------------------------------------------------------------------ -/
/- C4: batch 0 of the reconstructed plan                               -/
/- ------------------------------------------------------------------ -/

/-- C4 counterexample: with a non-rewritable root (`rootO`, a reward action)
and a rewritable first-level child, the plan is `[[creq0]]` -- no empty batch
is emitted for the root, and the first-level subcall occupies index 0. -/
theorem trace_to_tx_no_empty_batch0 :
    Simulate.parse_tx_trace simE rootO = none
      ∧ Simulate.trace_to_tx simE { trace := some [rootO, child0], state_diff := none }
          = some [[creq0]]
      ∧ Simulate.parse_tx_trace simE child0 = some creq0
      ∧ [[creq0]].get? 0 ≠ some ([] : List TransactionRequest) := by decide

/-- C4 (amended): when the root entry is rewritable, batch 0 is exactly its
rewritten call; when it is not, no empty batch is pushed, so the plan is just
the first-level batch (when nonempty) and first-level subcalls can sit at
index 0. -/
theorem trace_to_tx_batch0 (s : Simulate) (trace : BlockTrace) (tl : List TransactionTrace)
    (origin : TransactionTrace) (il : List TransactionRequest)
    (htl : trace.trace = some tl) (h0 : traceMap tl 0 = some origin)
    (hint : internalCalls s (traceMap tl) origin.subtraces = some il) :
    (∀ req, s.parse_tx_trace origin = some req →
        s.trace_to_tx trace = some ([req] :: if il.length > 0 then [il] else []))
      ∧ (s.parse_tx_trace origin = none →
        s.trace_to_tx trace = some (if il.length > 0 then [il] else [])) := by
  constructor
  · intro req hreq
    unfold Simulate.trace_to_tx
    rw [htl]
    simp only [h0, hreq, hint]
    split <;> simp
  · intro hreq
    unfold Simulate.trace_to_tx
    rw [htl]
    simp only [h0, hreq, hint]
    split <;> simp

/-- Witness for C4 with the rewritable root `rootC1` and its child. -/
theorem trace_to_tx_batch0_witness :
    Simulate.trace_to_tx simE { trace := some [rootC1, childC1], state_diff := none }
      = some ([rootReq1] ::
          if ([childReq1] : List TransactionRequest).length > 0 then [[childReq1]] else []) :=
  (trace_to_tx_batch0 simE { trace := some [rootC1, childC1], state_diff := none }
      [rootC1, childC1] rootC1 [childReq1] rfl (by decide) (by decide)).1 rootReq1 (by decide)

/- ------------------------------------------------------------------ -/
/- C10: totality of the reconstruction                                 -/
/- ------------------------------------------------------------------ -/

/-- C10: for a present trace list, the reconstruction avoids both `unwrap`
panics exactly when an entry keys to 0 and, for every `i` up to that root
entry's declared subtrace count, some entry keys to `i`; outside this
precondition it faults (returns no plan). -/
theorem trace_to_tx_total_iff (s : Simulate) (tl : List TransactionTrace)
    (sd : Option StateDiff) :
    (s.trace_to_tx { trace := some tl, state_diff := sd }).isSome = true ↔
      ∃ origin, traceMap tl 0 = some origin
        ∧ ∀ i, 1 ≤ i → i ≤ origin.subtraces → (traceMap tl i).isSome = true := by
  unfold Simulate.trace_to_tx
  cases h0 : traceMap tl 0 with
  | none => simp [h0]
  | some origin =>
      cases hint : internalCalls s (traceMap tl) origin.subtraces with
      | none =>
          simp only [h0, hint]
          constructor
          · intro hfalse
            simp at hfalse
          · rintro ⟨o, ho, hall⟩
            injection ho with ho2
            subst ho2
            have h2 := (internalCalls_isSome_iff s (traceMap tl) origin.subtraces).mpr hall
            rw [hint] at h2
            simp at h2
      | some il =>
          simp only [h0, hint]
          constructor
          · intro _
            exact ⟨origin, rfl,
              (internalCalls_isSome_iff s (traceMap tl) origin.subtraces).mp
                (by rw [hint]; rfl)⟩
          · intro _
            cases hp : s.parse_tx_trace origin <;> simp [hp]

/- ------------------------------------------------------------------ -/
/- C7: the happy-path reconstruction                                   -/
/- ------------------------------------------------------------------ -/

/-- C7 counterexample: a trace whose root is a call with zero declared
children satisfies the claim premise, yet the plan has exactly one batch,
not two. -/
theorem trace_to_tx_single_batch :
    rootC.subtraces = 0
      ∧ (Simulate.trace_to_tx simE { trace := some [rootC], state_diff := none }).map
          List.length = some 1
      ∧ (1 : Nat) ≠ 2 := by decide

/-- C7 (amended): for a trace consisting of a root and its `N ≥ 1` direct
children in child order (child `i` at path `[i]`), all rewritable, the plan
is exactly two batches: the root call alone, then the child calls in order. -/
theorem trace_to_tx_happy_path (s : Simulate) (sd : Option StateDiff)
    (root : TransactionTrace) (children : List TransactionTrace)
    (rootReq : TransactionRequest) (childReqs : List TransactionRequest)
    (hroot : root.trace_address = []) (hsub : root.subtraces = children.length)
    (hN : 1 ≤ children.length)
    (hpaths : ∀ i (h : i < children.length), (children.get ⟨i, h⟩).trace_address = [i])
    (hparse0 : s.parse_tx_trace root = some rootReq)
    (hlen : childReqs.length = children.length)
    (hparse : ∀ i (h1 : i < children.length) (h2 : i < childReqs.length),
      s.parse_tx_trace (children.get ⟨i, h1⟩) = some (childReqs.get ⟨i, h2⟩)) :
    s.trace_to_tx { trace := some (root :: children), state_diff := sd }
      = some [[rootReq], childReqs] := by
  have hroot0 := traceMap_root root children hroot hpaths
  have hint := internalCalls_take s root children childReqs hpaths hlen hparse
    children.length (Nat.le_refl _)
  have htake : childReqs.take children.length = childReqs := by
    rw [← hlen]
    simp
  rw [htake] at hint
  unfold Simulate.trace_to_tx
  simp only [hroot0, hparse0, hsub, hint]
  rw [if_pos (by omega)]
  simp

/-- Witness for C7 at the two-entry trace `rootC1`, `childC1`. -/
theorem trace_to_tx_happy_path_witness :
    Simulate.trace_to_tx simE { trace := some [rootC1, childC1], state_diff := none }
      = some [[rootReq1], [childReq1]] :=
  trace_to_tx_happy_path simE none rootC1 [childC1] rootReq1 [childReq1] rfl rfl
    (by decide)
    (fun i h => by
      have hi : i = 0 := by
        simp at h
        omega
      subst hi
      rfl)
    (by decide) rfl
    (fun i h1 h2 => by
      have hi : i = 0 := by
        simp at h1
        omega
      subst hi
      exact (by decide : Simulate.parse_tx_trace simE childC1 = some childReq1))

/- ------------------------------------------------------------------ -/
/- C8: the payload substitution                                        -/
/- ------------------------------------------------------------------ -/

/-- The scan leaves the empty string alone at any fuel. -/
theorem strReplaceAux_nil (pat rep : List Char) (fuel : Nat) :
    strReplaceAux pat rep fuel [] = [] := by
  cases fuel <;> rfl

/-- A string without an occurrence of the pattern is returned unchanged. -/
theorem strReplaceAux_no_occurrence (pat rep : List Char) (fuel : Nat) (s : List Char)
    (h : ¬ pat <:+: s) : strReplaceAux pat rep fuel s = s := by
  induction fuel generalizing s with
  | zero => rfl
  | succ fuel ih =>
      cases s with
      | nil => rfl
      | cons c rest =>
          cases hpre : pat.isPrefixOf (c :: rest) with
          | true =>
              exact absurd (List.isPrefixOf_iff_prefix.mp hpre).isInfix h
          | false =>
              have hrest : ¬ pat <:+: rest := fun hinf => h (List.infix_cons hinf)
              simp [strReplaceAux, hpre, ih rest hrest]

/-- When the pattern occurs exactly as the final segment of the string and
nowhere earlier, the scan replaces that one occurrence. -/
theorem strReplaceAux_replace_at (pat rep a : List Char) (fuel : Nat)
    (hfuel : a.length + 1 ≤ fuel)
    (hocc : ∀ i, i < a.length → ¬ pat <+: ((a ++ pat).drop i))
    (hne : pat ≠ []) :
    strReplaceAux pat rep fuel (a ++ pat) = a ++ rep := by
  induction a generalizing fuel with
  | nil =>
      cases fuel with
      | zero => omega
      | succ fuel =>
          rcases hp : pat with _ | ⟨c, rest⟩
          · exact absurd hp hne
          · have hpre : (c :: rest).isPrefixOf (c :: rest) = true :=
              List.isPrefixOf_iff_prefix.mpr (List.prefix_refl _)
            subst hp
            show strReplaceAux (c :: rest) rep (fuel + 1) (c :: rest) = rep
            unfold strReplaceAux
            rw [hpre]
            simp [List.drop_length, strReplaceAux_nil]
  | cons x a ih =>
      cases fuel with
      | zero => omega
      | succ fuel =>
          have h0 : ¬ pat <+: (x :: (a ++ pat)) := by
            have h1 := hocc 0 (by simp)
            simpa using h1
          have hpre : pat.isPrefixOf (x :: (a ++ pat)) = false := by
            cases hb : pat.isPrefixOf (x :: (a ++ pat)) with
            | false => rfl
            | true => exact absurd (List.isPrefixOf_iff_prefix.mp hb) h0
          show strReplaceAux pat rep (fuel + 1) (x :: (a ++ pat)) = x :: (a ++ rep)
          unfold strReplaceAux
          rw [hpre]
          simp only [Bool.false_eq_true, if_false, List.cons.injEq, true_and]
          refine ih fuel (by simpa using hfuel) ?_
          intro i hi
          have h2 := hocc (i + 1) (by simp; omega)
          simpa using h2

/-- C8 counterexample: for the periodic address encoding `fromP` (`00000001`
five times), the leftmost occurrence of the address in
`0x00000001<hex(from)>` starts inside the fixed selector, so `mock_tx_data`
yields `hex(to) ++ 00000001` instead of the claimed `00000001 ++ hex(to)`. -/
theorem mock_tx_data_overlap_cex :
    fromP.length = 40 ∧ toA.length = 40 ∧ fromP ≠ toA
      ∧ mock_tx_data (eight ++ fromP) fromP toA = toA ++ eight
      ∧ toA ++ eight ≠ eight ++ toA := by decide

/-- C8 (amended): `mock_tx_data` is a verbatim leftmost-first textual
replacement over the hex encoding: a payload whose formatted string has no
occurrence of the original address encoding is returned unchanged, and
`0x00000001<hex(from)>` rewrites to `0x00000001<hex(to)>` provided no
occurrence of `hex(from)` starts before the appended suffix (which fails
only for self-overlapping periodic addresses; see the counterexample). -/
theorem mock_tx_data_subst (data from_ to_ : List Char) :
    (¬ from_ <:+: ('0' :: 'x' :: data) → mock_tx_data data from_ to_ = data)
    ∧ (from_.length = 40 → to_.length = 40 →
        (∀ i, i < 10 → ¬ from_ <+: (('0' :: 'x' :: eight ++ from_).drop i)) →
        mock_tx_data (eight ++ from_) from_ to_ = eight ++ to_) := by
  constructor
  · intro h
    unfold mock_tx_data strReplace
    rw [strReplaceAux_no_occurrence from_ to_ _ _ h]
    rfl
  · intro h40 _ hocc
    have hne : from_ ≠ [] := by
      intro he
      exact hocc 0 (by omega) (he ▸ List.nil_prefix)
    unfold mock_tx_data strReplace
    have hshape : ('0' :: 'x' :: (eight ++ from_)) = ('0' :: 'x' :: eight) ++ from_ := rfl
    rw [hshape, strReplaceAux_replace_at from_ to_ ('0' :: 'x' :: eight) _ ?_ ?_ hne]
    · rfl
    · simp only [List.length_append, List.length_cons, h40, eight, List.length_nil]
      omega
    · intro i hi
      have h2 := hocc i (by simpa [eight] using hi)
      simpa [eight] using h2

/-- Witness for C8: the payload `0xd` contains no occurrence of the
40-character address `fromB` and survives unchanged, and appending `fromB` to
the selector rewrites exactly the appended occurrence to `toC`. -/
theorem mock_tx_data_subst_witness :
    mock_tx_data ['d'] fromB toC = ['d']
      ∧ mock_tx_data (eight ++ fromB) fromB toC = eight ++ toC :=
  ⟨(mock_tx_data_subst ['d'] fromB toC).1 (by decide),
   (mock_tx_data_subst [] fromB toC).2 (by decide) (by decide) (by decide)⟩

/- ------------------------------------------------------------------ -/
/- C9: the call rewriter                                               -/
/- ------------------------------------------------------------------ -/

/-- C9: for a call action the rewriter produces a request from the replaying
identity to the original callee with the original value and the rewritten
input data, leaving chain id, gas, gas price and nonce unset; for a create
action the same with no recipient and the rewritten init code; and it
returns nothing exactly when the action is neither a call nor a create. -/
theorem parse_tx_trace_spec (s : Simulate) (t : TransactionTrace) :
    (∀ d, t.action = Action.call d →
        s.parse_tx_trace t = some
          { chain_id := none, from_ := some s.signer, to_ := some d.to_,
            data := some (mock_tx_data d.input d.from_ (s.contract.getD s.signer)),
            value := some d.value, gas := none, gas_price := none, nonce := none })
      ∧ (∀ d, t.action = Action.create d →
        s.parse_tx_trace t = some
          { chain_id := none, from_ := some s.signer, to_ := none,
            data := some (mock_tx_data d.init d.from_ (s.contract.getD s.signer)),
            value := some d.value, gas := none, gas_price := none, nonce := none })
      ∧ (s.parse_tx_trace t = none ↔
          ¬ ((∃ d, t.action = Action.call d) ∨ (∃ d, t.action = Action.create d))) := by
  refine ⟨?_, ?_, ?_⟩
  · intro d hd
    simp [Simulate.parse_tx_trace, hd]
  · intro d hd
    simp [Simulate.parse_tx_trace, hd]
  · cases ht : t.action <;> simp [Simulate.parse_tx_trace, ht]

/-- Witness for C9: the rewriter applied to the concrete call entry
`childC1`. -/
theorem parse_tx_trace_spec_witness :
    Simulate.parse_tx_trace simE childC1 = some
      { chain_id := none, from_ := some simE.signer, to_ := some ['d'],
        data := some (mock_tx_data ['a', 'b'] ['c'] (simE.contract.getD simE.signer)),
        value := some 2, gas := none, gas_price := none, nonce := none } :=
  (parse_tx_trace_spec simE childC1).1
    { from_ := ['c'], to_ := ['d'], input := ['a', 'b'], value := 2 } rfl

end Arb
